import Mathlib

/-!
Shallow embedding of `src/lmfdb/modular_forms/elliptic_modular_forms/web_newform.py`.

Conventions of the embedding:
* Python dictionaries with a fixed key set become Lean structures.
* Python integers become `Int` (or `Nat` where the source only ever sees
  non-negative indices), Python strings become `String`.
* `raise ValueError(msg)` becomes an `Except` error value carrying the message.
* External collaborators (the Sage `latex` typesetter, `nf_display_knowl`,
  `field_pretty`, the data store `db.*.lookup`) are not code of this
  repository; they are passed in as explicit function parameters, except for
  `cremona_letter_code` (Sage), whose well documented arithmetic behaviour is
  reproduced below.
-/

/- ## Label validation (source lines 14-16)

`LABEL_RE = re.compile(r"^[0-9]+\.[0-9]+\.[a-z]+\.[a-z]+$")`
`def valid_label(label): return bool(LABEL_RE.match(label))`

The character classes `[0-9]`/`[a-z]` are disjoint from the separator `.`,
so the greedy matcher below is equivalent to the backtracking regex engine.
Python's `$` (without `re.MULTILINE`) matches at the end of the string or
just before a newline at the end of the string, hence `labelEnd`. -/

def chompRun (p : Char → Bool) : List Char → Option (List Char)
  | [] => none
  | c :: rest => if p c then some (rest.dropWhile p) else none

def chompDot : List Char → Option (List Char)
  | [] => none
  | c :: rest => if c = '.' then some rest else none

def labelEnd (cs : List Char) : Bool :=
  cs == [] || cs == ['\n']

def valid_label (label : String) : Bool :=
  match ((((((chompRun Char.isDigit label.data).bind chompDot).bind
      (chompRun Char.isDigit)).bind chompDot).bind
      (chompRun Char.isLower)).bind chompDot).bind (chompRun Char.isLower) with
  | none => false
  | some rest => labelEnd rest

/-- Split a character list at every `.` (the parts keep no dot; `n` dots
give `n+1` parts, empty parts included). -/
def splitDots : List Char → List (List Char)
  | [] => [[]]
  | c :: rest =>
    let ps := splitDots rest
    if c = '.' then [] :: ps
    else (c :: ps.headD []) :: ps.tail

/-- Transcription of the spec's words (not of the source): a label is valid
iff it splits on `.` into exactly four parts, the first two nonempty digit
runs, the last two nonempty lowercase-letter runs. Used to compare the spec's
claimed pattern with the source's `valid_label`. -/
def spec_label_pattern (s : String) : Bool :=
  match splitDots s.data with
  | [a, b, c, d] =>
      (!a.isEmpty && a.all Char.isDigit) &&
      (!b.isEmpty && b.all Char.isDigit) &&
      (!c.isEmpty && c.all Char.isLower) &&
      (!d.isEmpty && d.all Char.isLower)
  | _ => false

/- ## DimGrid (source lines 18-54) -/

@[ext]
structure DimRow where
  all : Int
  new : Int
  old : Int

@[ext]
structure DimGrid where
  M : DimRow
  S : DimRow
  E : DimRow

/-- Elementwise sum of two rows, one cell of `DimGrid.__add__`. -/
def DimRow.add (a b : DimRow) : DimRow :=
  ⟨a.all + b.all, a.new + b.new, a.old + b.old⟩

/-- Embedding of `DimGrid.__add__` on two grids: elementwise sum over the
three rows `M`, `S`, `E` and three columns `all`, `new`, `old`.  (The source
also accepts the integer `0` as the right summand and returns `self`
unchanged, so folding with Python's `sum` works; that branch is the identity
by definition.) -/
def DimGrid.add (a b : DimGrid) : DimGrid :=
  ⟨a.M.add b.M, a.S.add b.S, a.E.add b.E⟩

/-- Embedding of the default `DimGrid.__init__` grid: every cell `0`. -/
def DimGrid.zero : DimGrid :=
  ⟨⟨0, 0, 0⟩, ⟨0, 0, 0⟩, ⟨0, 0, 0⟩⟩

/-- The six integer fields `DimGrid.from_db` reads from a newform row. -/
structure MfDimRow where
  mf_dim : Int
  dim : Int
  eis_new_dim : Int
  cusp_dim : Int
  eis_dim : Int

/-- Embedding of `DimGrid.from_db` (source lines 43-54). -/
def DimGrid.from_db (data : MfDimRow) : DimGrid :=
  ⟨⟨data.mf_dim, data.dim + data.eis_new_dim,
      data.mf_dim - data.dim - data.eis_new_dim⟩,
   ⟨data.cusp_dim, data.dim, data.cusp_dim - data.dim⟩,
   ⟨data.eis_dim, data.eis_new_dim, data.eis_dim - data.eis_new_dim⟩⟩

/- ## q-expansion formatter (source lines 56-75)

The source builds the polynomial `term = sum(Rgens[i]*eigseq[j][i])` over
`QQ[beta1..beta_{d-1}]` with `Rgens = [1, beta1, ..]`, so `term` is the
linear polynomial whose coefficient vector is exactly `eigseq[j]` (first
entry the constant coefficient); `term != 0` iff some entry is nonzero.
Sage's `latex(term*(q**j))` is an external typesetter and is passed in as
the parameter `latexF`, applied to the coefficient vector and the power.
Python's `latexterm[0] <> '-'` (is the first character a minus sign?) is
embedded as the test `lt.data.head? == some '-'`; the two differ only when
the typesetter returns the empty string for a nonzero term (where the source
would raise `IndexError`), which Sage never does. -/

/-- Coefficient vector `[eigseq[j][i] for i in range(d)]` of the `j`-th term. -/
def termOfRow (d : Nat) (row : List Int) : List Int :=
  (List.range d).map (fun i => row.getD i 0)

/-- Embedding of the test `term != 0`: the linear polynomial with this
coefficient vector is nonzero iff some coefficient is nonzero. -/
def termNonzero (c : List Int) : Bool :=
  c.any (fun x => x != 0)

/-- Embedding of `if s <> '' and latexterm[0] <> '-': latexterm = '+' + latexterm`. -/
def plusTerm (s lt : String) : String :=
  if s != "" && !(lt.data.head? == some '-') then "+" ++ lt else lt

/-- Embedding of the `for j in range(prec)` accumulation loop. -/
def eigsLoop (latexF : List Int → Nat → String) (d : Nat) :
    Nat → List (List Int) → String → String
  | _, [], s => s
  | j, row :: rest, s =>
    if termNonzero (termOfRow d row) then
      eigsLoop latexF d (j + 1) rest
        (s ++ ("\\(" ++ plusTerm s (latexF (termOfRow d row) j) ++ "\\)"))
    else
      eigsLoop latexF d (j + 1) rest s

/-- Embedding of the remainder marker `'\(+O(q^{%s})\)' % prec`. -/
def oMarker (prec : Nat) : String :=
  "\\(+O(q^\x7b" ++ toString prec ++ "\x7d)\\)"

/-- Embedding of `eigs_as_seqseq_to_qexp`, parameterized by the external
latex typesetter `latexF` (applied to a term's coefficient vector and its
power of `q`). -/
def eigs_as_seqseq_to_qexp (latexF : List Int → Nat → String)
    (eigseq : List (List Int)) : String :=
  if eigseq.length = 0 then "O(1)"
  else eigsLoop latexF (eigseq.headD []).length 0 eigseq "" ++ oMarker eigseq.length

/-- Concrete stand-in for the external latex typesetter, used to settle the
claims at concrete inputs; the properties at issue (which terms appear, where
the `+` separators go) do not depend on how a single term is typeset. -/
def latexTag (c : List Int) (j : Nat) : String :=
  "q^" ++ toString j ++ "*" ++ toString c

/-- List of the (power, coefficient-vector) pairs of the nonzero terms of
`eigseq`, starting at power `j`; the spec-side description of which terms the
formatter keeps. -/
def nonzeroTermsFrom (d : Nat) : Nat → List (List Int) → List (Nat × List Int)
  | _, [] => []
  | j, row :: rest =>
    if termNonzero (termOfRow d row) then
      (j, termOfRow d row) :: nonzeroTermsFrom d (j + 1) rest
    else
      nonzeroTermsFrom d (j + 1) rest

/-- Spec-side rendering of a list of nonzero terms: each term is typeset and
wrapped in `\( \)`, and a `+` is inserted before every term after the first
unless its typeset form already begins with `-`. -/
def renderTerms (latexF : List Int → Nat → String) :
    Bool → List (Nat × List Int) → String
  | _, [] => ""
  | isFirst, (j, c) :: rest =>
    ("\\(" ++ (if isFirst || ((latexF c j).data.head? == some '-') then latexF c j
               else "+" ++ latexF c j) ++ "\\)")
      ++ renderTerms latexF false rest

/- ## WebNewform construction: the Hecke eigenvalue loop (source lines 90-103) -/

/-- Row returned by `db.mf_hecke_nf.search(..., ['n','an'], sort=['n'])`:
the index `n` and the optional eigenvalue vector `an` (`none`/`some []`
model a missing or empty — Python-falsy — `ev.get('an')`). -/
structure EigRow where
  n : Nat
  an : Option (List Int)

/-- Python truthiness of `ev.get('an')`: falsy when the key is absent or
holds an empty list. -/
def pyEmpty : Option (List Int) → Bool
  | none => true
  | some l => l.isEmpty

/-- Embedding of the `for i, ev in enumerate(eigenvals)` loop: checks
`ev['n'] != i+1` (raising `"Missing eigenvalue"`), stops with
`has_exact_qexp = False` at the first row without an eigenvalue vector, and
otherwise appends `ev['an']` to `qexp`. -/
def qexpLoop : Nat → List EigRow → List (List Int) →
    Except String (Bool × List (List Int))
  | _, [], qexp => .ok (true, qexp)
  | i, ev :: rest, qexp =>
    if ev.n ≠ i + 1 then .error "Missing eigenvalue"
    else if pyEmpty ev.an then .ok (false, qexp)
    else qexpLoop (i + 1) rest (qexp ++ [ev.an.getD []])

/-- The attributes the eigenvalue block of `WebNewform.__init__` sets:
`qexp`/`qexp_prec` stay `none` when the fetched list is empty (the source's
`else` branch sets neither attribute). -/
structure QexpState where
  has_exact_qexp : Bool
  qexp : Option (List (List Int))
  qexp_prec : Option Nat

/-- Embedding of source lines 90-104: seed `qexp` with the zero vector of
length `dim`, run the eigenvalue loop, then set `qexp_prec = len(qexp)-1`. -/
def buildQexp (dim : Nat) (rows : List EigRow) : Except String QexpState :=
  if rows.isEmpty then .ok ⟨false, none, none⟩
  else
    match qexpLoop 0 rows [List.replicate dim (0 : Int)] with
    | .error e => .error e
    | .ok (exact, q) => .ok ⟨exact, some q, some (q.length - 1)⟩

/- ## by_label (source lines 130-137) -/

/-- Error taxonomy of `WebNewform.by_label`: the source raises `ValueError`
in both branches, distinguished by message; the spec distinguishes them as
InvalidLabel and NotFound. -/
inductive NewformError where
  | invalidLabel (msg : String)
  | notFound (msg : String)

/-- Embedding of `WebNewform.by_label`, with the data store
`db.mf_newforms.lookup` passed in as the function `lookup`. -/
def by_label {α : Type} (lookup : String → Option α) (label : String) :
    Except NewformError α :=
  if valid_label label = false then
    .error (.invalidLabel ("Invalid newform label " ++ label ++ "."))
  else
    match lookup label with
    | none => .error (.notFound ("Newform " ++ label ++ " not found"))
    | some data => .ok data

/- ## Character-orbit label (source line 115) -/

/-- Digit list of Sage's `cremona_letter_code`: the base-26 positional
numeral of `n` with digits `a = 0, ..., z = 25` (so `26` is `"ba"`, not
`"aa"`). Modelled from the external Sage collaborator
`sage.databases.cremona.cremona_letter_code`. -/
def cremonaDigits (n : Nat) : List Char :=
  if h : n < 26 then [Char.ofNat (97 + n)]
  else cremonaDigits (n / 26) ++ [Char.ofNat (97 + n % 26)]
decreasing_by
  exact Nat.div_lt_self (by omega) (by omega)

/-- Sage's `cremona_letter_code` as a string. -/
def cremona_letter_code (n : Nat) : String :=
  ⟨cremonaDigits n⟩

/-- Embedding of source line 115:
`"\(" + str(self.level) + "\)." + cremona_letter_code(self.char_orbit - 1)`. -/
def char_orbit_label (level : Nat) (char_orbit : Nat) : String :=
  "\\(" ++ toString level ++ "\\)." ++ cremona_letter_code (char_orbit - 1)

/- ## field_display / field_knowl (source lines 139-147, 156-161) -/

/-- Embedding of `WebNewform.field_knowl`; `nfDisplayKnowl` and
`fieldPretty` are the external collaborators `nf_display_knowl` and
`field_pretty`. -/
def field_knowl (nf_label : Option String)
    (nfDisplayKnowl : String → String → String)
    (fieldPretty : String → String) : String :=
  match nf_label with
  | some label =>
      if label.isEmpty then "Not in LMFDB"
      else nfDisplayKnowl label (fieldPretty label)
  | none => "Not in LMFDB"

/-- Embedding of `WebNewform.field_display`: the record's optional
`nf_label` attribute is the first argument. -/
def field_display (nf_label : Option String)
    (nfDisplayKnowl : String → String → String)
    (fieldPretty : String → String) : String :=
  match nf_label with
  | none => "\\(\\Q(\\nu)\\)"
  | some label =>
      if label = "1.1.1.1" then nfDisplayKnowl label "\\(\\Q\\)"
      else "\\(\\Q(\\nu)\\) = " ++ field_knowl (some label) nfDisplayKnowl fieldPretty

/-- Concrete stand-in for the external `nf_display_knowl` collaborator,
used only to settle claims at concrete inputs. -/
def knowlTag (label name : String) : String :=
  "<a knowl=" ++ label ++ ">" ++ name ++ "</a>"

/-- Concrete stand-in for the external `field_pretty` collaborator. -/
def prettyTag (label : String) : String :=
  label

/- ## String helper lemmas (the embedding states results over `String`) -/

theorem strExt {s t : String} (h : s.data = t.data) : s = t := by
  cases s; cases t; exact congrArg String.mk h

theorem strData_append (s t : String) : (s ++ t).data = s.data ++ t.data := rfl

theorem strAppend_assoc (s t u : String) : s ++ t ++ u = s ++ (t ++ u) := by
  apply strExt
  simp [strData_append]

theorem strAppend_empty (s : String) : s ++ "" = s := by
  apply strExt
  simp [strData_append]

theorem strEmpty_append (s : String) : "" ++ s = s := by
  apply strExt
  simp [strData_append]

theorem strAppend_ne_empty (s t : String) (h : t.data ≠ []) :
    ((s ++ t) == "") = false := by
  rw [beq_eq_false_iff_ne]
  intro he
  have h2 : s.data ++ t.data = [] := by
    simpa [strData_append] using congrArg String.data he
  exact h (List.append_eq_nil.mp h2).2

/- ## Claim theorems for the dimension grid -/

/-- C6: for every input row, the grid built by `DimGrid.from_db` satisfies
`all = new + old` in each of the three rows `M`, `S` and `E`. -/
theorem from_db_all_eq_new_add_old (data : MfDimRow) :
    (DimGrid.from_db data).M.all
        = (DimGrid.from_db data).M.new + (DimGrid.from_db data).M.old
    ∧ (DimGrid.from_db data).S.all
        = (DimGrid.from_db data).S.new + (DimGrid.from_db data).S.old
    ∧ (DimGrid.from_db data).E.all
        = (DimGrid.from_db data).E.new + (DimGrid.from_db data).E.old := by
  refine ⟨?_, ?_, ?_⟩ <;> simp [DimGrid.from_db]

/-- C7: grid combination is an elementwise sum with the all-zero grid as a
two-sided identity, and it is commutative and associative. -/
theorem dimgrid_add_monoid_laws :
    (∀ g : DimGrid, DimGrid.add g DimGrid.zero = g)
    ∧ (∀ a b : DimGrid, DimGrid.add a b = DimGrid.add b a)
    ∧ (∀ a b c : DimGrid,
        DimGrid.add (DimGrid.add a b) c = DimGrid.add a (DimGrid.add b c)) := by
  refine ⟨fun g => ?_, fun a b => ?_, fun a b c => ?_⟩ <;>
    ext <;> simp [DimGrid.add, DimRow.add, DimGrid.zero] <;> ring

/- ## Claim theorems for the q-expansion formatter -/

theorem plusTerm_eq (s lt : String) :
    plusTerm s lt
      = if (s == "") || (lt.data.head? == some '-') then lt
        else "+" ++ lt := by
  cases h1 : s == "" <;> cases h2 : lt.data.head? == some '-' <;>
    simp [plusTerm, bne, h1, h2]

/-- Loop invariant: the accumulated string `s` is followed by the rendering
of the nonzero terms still to come, the first of them treated as "first"
exactly when `s` is still empty. -/
theorem eigsLoop_renderTerms (F : List Int → Nat → String) (d : Nat) :
    ∀ (rows : List (List Int)) (j : Nat) (s : String),
      eigsLoop F d j rows s
        = s ++ renderTerms F (s == "") (nonzeroTermsFrom d j rows) := by
  intro rows
  induction rows with
  | nil =>
    intro j s
    simp [eigsLoop, nonzeroTermsFrom, renderTerms, strAppend_empty]
  | cons row rest ih =>
    intro j s
    by_cases h : termNonzero (termOfRow d row) = true
    · rw [eigsLoop, if_pos h, ih, nonzeroTermsFrom, if_pos h, renderTerms]
      rw [strAppend_ne_empty s _ (by simp [strData_append]), plusTerm_eq,
        strAppend_assoc]
    · rw [eigsLoop, if_neg h, ih, nonzeroTermsFrom, if_neg h]

/-- C1: on input `[[0,0],[1,3]]` the formatter omits the zero constant term,
renders exactly one term — the coefficient vector `[1,3]`, i.e.
`1*beta_0 + 3*beta_1`, at power `1` — and closes with the order-2 remainder
marker; on the empty input it returns the literal string `O(1)`. `F` is the
external latex typesetter applied to a term's coefficient vector and power. -/
theorem qexp_format_c1 (F : List Int → Nat → String) :
    eigs_as_seqseq_to_qexp F [[0, 0], [1, 3]]
      = "\\(" ++ F [1, 3] 1 ++ "\\)\\(+O(q^\x7b2\x7d)\\)"
    ∧ eigs_as_seqseq_to_qexp F [] = "O(1)" := by
  constructor
  · rw [show eigs_as_seqseq_to_qexp F [[0, 0], [1, 3]]
        = eigsLoop F 2 0 [[0, 0], [1, 3]] "" ++ oMarker 2 from rfl]
    rw [eigsLoop, if_neg (by decide), eigsLoop, if_pos (by decide), eigsLoop,
      show termOfRow 2 [1, 3] = [1, 3] from rfl,
      show ∀ lt, plusTerm "" lt = lt from fun _ => rfl]
    apply strExt
    simp [strData_append, oMarker, show toString (2 : Nat) = "2" from rfl]
  · rfl

/-- C2 (amended): a term is omitted exactly when its whole coefficient
vector is zero (the linear polynomial is zero) — a zero coefficient *sum*
does not suffice — and a `+` is inserted before each rendered term after the
first unless that term's rendering already begins with a minus sign. -/
theorem qexp_format_c2_amended (F : List Int → Nat → String)
    (eigseq : List (List Int)) (h : eigseq ≠ []) :
    eigs_as_seqseq_to_qexp F eigseq
      = renderTerms F true (nonzeroTermsFrom (eigseq.headD []).length 0 eigseq)
        ++ oMarker eigseq.length := by
  rw [eigs_as_seqseq_to_qexp, if_neg (by simpa using h), eigsLoop_renderTerms]
  rw [show (("" : String) == "") = true from rfl, strEmpty_append]

theorem qexp_format_c2_witness :
    ([[1, 2]] : List (List Int)) ≠ []
    ∧ eigs_as_seqseq_to_qexp latexTag [[1, 2]]
      = renderTerms latexTag true
          (nonzeroTermsFrom ([[1, 2]].headD []).length 0 [[1, 2]])
        ++ oMarker [[1, 2]].length :=
  ⟨by decide, qexp_format_c2_amended latexTag [[1, 2]] (by decide)⟩

/-- C2 counterexample: the input `[[1, -1]]` has coefficient sum
`1 + (-1) = 0`, yet the formatter renders the term instead of omitting it
(omission would leave only the remainder marker). -/
theorem qexp_format_c2_cex :
    (1 : Int) + (-1) = 0
    ∧ eigs_as_seqseq_to_qexp latexTag [[1, -1]]
        = "\\(" ++ latexTag [1, -1] 0 ++ "\\)" ++ oMarker 1
    ∧ "\\(" ++ latexTag [1, -1] 0 ++ "\\)" ++ oMarker 1 ≠ oMarker 1 := by
  refine ⟨by norm_num, ?_, by decide⟩
  rw [show eigs_as_seqseq_to_qexp latexTag [[1, -1]]
      = eigsLoop latexTag 2 0 [[1, -1]] "" ++ oMarker 1 from rfl]
  rw [eigsLoop, if_pos (by decide), eigsLoop,
    show termOfRow 2 [1, -1] = [1, -1] from rfl,
    show ∀ lt, plusTerm "" lt = lt from fun _ => rfl]
  apply strExt
  simp [strData_append]

/- ## Claim theorems for the eigenvalue-sequence loop -/

theorem qexpLoop_error_msg :
    ∀ (rows : List EigRow) (i : Nat) (acc : List (List Int)) (e : String),
      qexpLoop i rows acc = .error e → e = "Missing eigenvalue" := by
  intro rows
  induction rows with
  | nil => intro i acc e h; simp [qexpLoop] at h
  | cons ev rest ih =>
    intro i acc e h
    rw [qexpLoop] at h
    by_cases hn : ev.n = i + 1
    · rw [if_neg (by simpa using hn)] at h
      by_cases hp : pyEmpty ev.an = true
      · rw [if_pos hp] at h; cases h
      · rw [if_neg hp] at h
        exact ih (i + 1) (acc ++ [ev.an.getD []]) e h
    · rw [if_pos hn] at h
      cases h
      rfl

/-- When every fetched row still carries an eigenvalue vector, the loop
fails exactly when the indices are not `i+1, i+2, ...` in order. -/
theorem qexpLoop_error_iff (rows : List EigRow)
    (h : ∀ r ∈ rows, pyEmpty r.an = false) :
    ∀ (i : Nat) (acc : List (List Int)),
      (qexpLoop i rows acc = .error "Missing eigenvalue")
        ↔ rows.map (fun r => r.n) ≠ List.range' (i + 1) rows.length := by
  induction rows with
  | nil => intro i acc; simp [qexpLoop]
  | cons ev rest ih =>
    intro i acc
    have hev : pyEmpty ev.an = false := h ev (by simp)
    have hrest : ∀ r ∈ rest, pyEmpty r.an = false :=
      fun r hr => h r (by simp [hr])
    rw [qexpLoop]
    by_cases hn : ev.n = i + 1
    · rw [if_neg (by simpa using hn), if_neg (by simp [hev])]
      rw [ih hrest (i + 1) (acc ++ [ev.an.getD []])]
      simp [List.range'_succ, hn]
    · rw [if_pos hn]
      simp [List.range'_succ, hn]

/-- C3 (amended): provided every fetched row carries a (nonempty) eigenvalue
vector, record construction raises the missing-eigenvalue error exactly when
the row indices are not the gap-free strictly increasing sequence
`1, 2, ..., k`; in particular indices `[1,2,4]` raise and `[1,2,3]` succeed.
(A gap occurring after a trace-only row is not detected, because the loop
stops at that row: see the counterexample.) -/
theorem missing_eigenvalue_iff (dim : Nat) (rows : List EigRow)
    (h : ∀ r ∈ rows, pyEmpty r.an = false) :
    (buildQexp dim rows = .error "Missing eigenvalue")
      ↔ rows.map (fun r => r.n) ≠ List.range' 1 rows.length := by
  rw [buildQexp]
  by_cases he : rows.isEmpty
  · rw [if_pos he]
    rw [List.isEmpty_iff.mp he]
    simp
  · rw [if_neg he]
    have hiff := qexpLoop_error_iff rows h 0 [List.replicate dim (0 : Int)]
    cases hq : qexpLoop 0 rows [List.replicate dim (0 : Int)] with
    | error e =>
      have he2 : e = "Missing eigenvalue" :=
        qexpLoop_error_msg rows 0 [List.replicate dim (0 : Int)] e hq
      subst he2
      rw [hq] at hiff
      simpa using hiff
    | ok p =>
      rw [hq] at hiff
      simp only [reduceCtorEq, false_iff, not_not] at hiff
      simp [hiff]

theorem missing_eigenvalue_witness :
    buildQexp 1 [⟨1, some [2]⟩, ⟨2, some [3]⟩, ⟨4, some [5]⟩]
        = .error "Missing eigenvalue"
    ∧ buildQexp 1 [⟨1, some [2]⟩, ⟨2, some [3]⟩, ⟨3, some [5]⟩]
        ≠ .error "Missing eigenvalue" := by
  constructor
  · exact (missing_eigenvalue_iff 1 _ (by decide)).mpr (by decide)
  · intro hcontra
    exact (missing_eigenvalue_iff 1 _ (by decide)).mp hcontra (by decide)

/-- C3 counterexample: a fetched sequence whose indices are `[1, 2, 4]` —
so with a gap — does NOT raise, because its second row is trace-only (no
`an` vector) and the loop stops there before reaching the gap. -/
theorem missing_eigenvalue_cex :
    ([⟨1, some [5]⟩, ⟨2, none⟩, ⟨4, some [7]⟩] : List EigRow).map
        (fun r => r.n) = [1, 2, 4]
    ∧ buildQexp 1 [⟨1, some [5]⟩, ⟨2, none⟩, ⟨4, some [7]⟩]
        = .ok ⟨false, some [[0], [5]], some 1⟩ := by
  constructor <;> rfl

/-- Successful full consumption of the eigenvalue rows pins down the
accumulated coefficient list and the row indices. -/
theorem qexpLoop_ok_true (rows : List EigRow) :
    ∀ (i : Nat) (acc q : List (List Int)),
      qexpLoop i rows acc = .ok (true, q) →
        q = acc ++ rows.map (fun r => r.an.getD [])
        ∧ rows.map (fun r => r.n) = List.range' (i + 1) rows.length := by
  induction rows with
  | nil =>
    intro i acc q h
    simp [qexpLoop] at h
    simp [h]
  | cons ev rest ih =>
    intro i acc q h
    rw [qexpLoop] at h
    by_cases hn : ev.n = i + 1
    · rw [if_neg (by simpa using hn)] at h
      by_cases hp : pyEmpty ev.an = true
      · rw [if_pos hp] at h
        simp at h
      · rw [if_neg hp] at h
        obtain ⟨hq, hidx⟩ := ih (i + 1) (acc ++ [ev.an.getD []]) q h
        refine ⟨?_, ?_⟩
        · rw [hq]
          simp
        · simp [List.range'_succ, hn, hidx]
    · rw [if_pos hn] at h
      cases h

/-- C10: whenever construction succeeds with `has_exact_qexp` true, the
stored `qexp` is the all-zero vector of length `dim` followed by the fetched
eigenvalue vectors in order (so `qexp[n]` is the coefficient vector of
`q^n`), `qexp_prec = len(qexp) - 1`, and the row indices are `1, ..., k`. -/
theorem exact_qexp_shape (dim : Nat) (rows : List EigRow) (st : QexpState)
    (hok : buildQexp dim rows = .ok st) (hex : st.has_exact_qexp = true) :
    st.qexp = some (List.replicate dim (0 : Int)
        :: rows.map (fun r => r.an.getD []))
    ∧ st.qexp_prec = some ((List.replicate dim (0 : Int)
        :: rows.map (fun r => r.an.getD [])).length - 1)
    ∧ rows.map (fun r => r.n) = List.range' 1 rows.length := by
  rw [buildQexp] at hok
  by_cases he : rows.isEmpty
  · rw [if_pos he] at hok
    cases hok
    cases hex
  · rw [if_neg he] at hok
    cases hq : qexpLoop 0 rows [List.replicate dim (0 : Int)] with
    | error e => rw [hq] at hok; cases hok
    | ok p =>
      rw [hq] at hok
      cases hok
      obtain ⟨exact, q⟩ := p
      have hex2 : exact = true := hex
      subst hex2
      obtain ⟨hq2, hidx⟩ := qexpLoop_ok_true rows 0 [List.replicate dim (0 : Int)] q hq
      rw [List.singleton_append] at hq2
      subst hq2
      refine ⟨rfl, rfl, hidx⟩

theorem exact_qexp_witness :
    (⟨true, some [[0], [2], [3]], some 2⟩ : QexpState).qexp
        = some (List.replicate 1 (0 : Int)
            :: ([⟨1, some [2]⟩, ⟨2, some [3]⟩] : List EigRow).map
              (fun r => r.an.getD []))
    ∧ (⟨true, some [[0], [2], [3]], some 2⟩ : QexpState).qexp_prec
        = some ((List.replicate 1 (0 : Int)
            :: ([⟨1, some [2]⟩, ⟨2, some [3]⟩] : List EigRow).map
              (fun r => r.an.getD [])).length - 1)
    ∧ ([⟨1, some [2]⟩, ⟨2, some [3]⟩] : List EigRow).map (fun r => r.n)
        = List.range' 1 ([⟨1, some [2]⟩, ⟨2, some [3]⟩] : List EigRow).length :=
  exact_qexp_shape 1 [⟨1, some [2]⟩, ⟨2, some [3]⟩]
    ⟨true, some [[0], [2], [3]], some 2⟩ rfl rfl

/- ## Claim theorems for the character-orbit label -/

/-- C8 (amended): the derived character-orbit label is the level wrapped in
latex math delimiters, a dot, and Sage's Cremona letter code of the 0-based
orbit index (base-26 positional with digit `a = 0`): orbit 1 at level 7
gives `\(7\).a`, orbit 2 gives `\(7\).b`, and orbit 27 gives `\(7\).ba`
(not `7.aa`). -/
theorem cremonaDigits_lt (n : Nat) (h : n < 26) :
    cremonaDigits n = [Char.ofNat (97 + n)] := by
  rw [cremonaDigits]
  simp [h]

theorem cremonaDigits_ge (n : Nat) (h : ¬ n < 26) :
    cremonaDigits n = cremonaDigits (n / 26) ++ [Char.ofNat (97 + n % 26)] := by
  rw [cremonaDigits]
  simp [h]

theorem cremonaDigits_26 : cremonaDigits 26 = ['b', 'a'] := by
  rw [cremonaDigits_ge 26 (by norm_num),
    show (26 : Nat) / 26 = 1 from rfl, show (26 : Nat) % 26 = 0 from rfl,
    cremonaDigits_lt 1 (by norm_num)]
  decide

theorem char_orbit_label_values :
    char_orbit_label 7 1 = "\\(7\\).a"
    ∧ char_orbit_label 7 2 = "\\(7\\).b"
    ∧ char_orbit_label 7 27 = "\\(7\\).ba" := by
  refine ⟨?_, ?_, ?_⟩
  · rw [char_orbit_label, cremona_letter_code,
      show (1 : Nat) - 1 = 0 from rfl, cremonaDigits_lt 0 (by norm_num)]
    decide
  · rw [char_orbit_label, cremona_letter_code,
      show (2 : Nat) - 1 = 1 from rfl, cremonaDigits_lt 1 (by norm_num)]
    decide
  · rw [char_orbit_label, cremona_letter_code,
      show (27 : Nat) - 1 = 26 from rfl, cremonaDigits_26]
    decide

/-- C8 counterexample: the stored label is latex-wrapped, and index 27 maps
to Cremona code `ba` (positional base 26 with `a = 0`), not to the bijective
base-26 code `aa`; so neither claimed literal matches. -/
theorem char_orbit_label_cex :
    char_orbit_label 7 1 ≠ "7.a" ∧ char_orbit_label 7 27 ≠ "7.aa" := by
  constructor
  · rw [char_orbit_label, cremona_letter_code,
      show (1 : Nat) - 1 = 0 from rfl, cremonaDigits_lt 0 (by norm_num)]
    decide
  · rw [char_orbit_label, cremona_letter_code,
      show (27 : Nat) - 1 = 26 from rfl, cremonaDigits_26]
    decide

/- ## Claim theorems for field_display -/

/-- C9 (amended): with no coefficient-field label, `field_display` returns
the literal `\(\Q(\nu)\)` (the formal-generator field symbol, not the bare
rationals symbol `\(\Q\)`); with label exactly `1.1.1.1` it returns the
field knowl named `\(\Q\)`. Both branches are plain returns — the function
is total, so neither raises — for every knowl/pretty collaborator. -/
theorem field_display_branches (nfDisplayKnowl : String → String → String)
    (fieldPretty : String → String) :
    field_display none nfDisplayKnowl fieldPretty = "\\(\\Q(\\nu)\\)"
    ∧ field_display (some "1.1.1.1") nfDisplayKnowl fieldPretty
        = nfDisplayKnowl "1.1.1.1" "\\(\\Q\\)" := by
  exact ⟨rfl, rfl⟩

/-- C9 counterexample: with `nf_label` absent the returned string is
`\(\Q(\nu)\)`, which is not the rationals symbol `\(\Q\)` (the string the
source itself uses for the rationals in the `1.1.1.1` branch). -/
theorem field_display_cex :
    field_display none knowlTag prettyTag = "\\(\\Q(\\nu)\\)"
    ∧ field_display none knowlTag prettyTag ≠ "\\(\\Q\\)" := by
  exact ⟨rfl, by decide⟩

/- ## Claim theorems for by_label -/

/-- C4: for every malformed label `by_label` returns the InvalidLabel error
— for every data store, i.e. without consulting the store at all — and for
every well-formed label absent from the store it returns the NotFound
error. -/
theorem by_label_errors {α : Type} (lookup : String → Option α) (label : String) :
    (valid_label label = false →
      by_label lookup label
        = .error (.invalidLabel ("Invalid newform label " ++ label ++ ".")))
    ∧ (valid_label label = true → lookup label = none →
      by_label lookup label
        = .error (.notFound ("Newform " ++ label ++ " not found"))) := by
  constructor
  · intro h
    simp [by_label, h]
  · intro h hl
    simp [by_label, h, hl]

theorem by_label_errors_witness :
    by_label (fun _ => (none : Option Unit)) "abc"
        = .error (.invalidLabel "Invalid newform label abc.")
    ∧ by_label (fun _ => (none : Option Unit)) "1.12.a.a"
        = .error (.notFound "Newform 1.12.a.a not found") :=
  ⟨(by_label_errors (fun _ => (none : Option Unit)) "abc").1 (by decide),
   (by_label_errors (fun _ => (none : Option Unit)) "1.12.a.a").2 (by decide) rfl⟩

/- ## Claim theorems for label validation -/

theorem dropWhile_append_all (p : Char → Bool) :
    ∀ (l r : List Char), (∀ c ∈ l, p c = true) →
      List.dropWhile p (l ++ r) = List.dropWhile p r := by
  intro l
  induction l with
  | nil => intro r _; rfl
  | cons c tl ih =>
    intro r h
    rw [List.cons_append, List.dropWhile_cons, if_pos (h c (by simp))]
    exact ih r (fun x hx => h x (by simp [hx]))

theorem dropWhile_of_stop (p : Char → Bool) (r : List Char)
    (h : r = [] ∨ ∃ x t, r = x :: t ∧ p x = false) :
    List.dropWhile p r = r := by
  rcases h with rfl | ⟨x, t, rfl, hx⟩
  · rfl
  · rw [List.dropWhile_cons, if_neg (by simp [hx])]

theorem dropWhile_shape (p : Char → Bool) :
    ∀ l : List Char, List.dropWhile p l = []
      ∨ ∃ x t, List.dropWhile p l = x :: t ∧ p x = false := by
  intro l
  induction l with
  | nil => exact Or.inl rfl
  | cons c tl ih =>
    by_cases hc : p c = true
    · rw [List.dropWhile_cons, if_pos hc]
      exact ih
    · rw [List.dropWhile_cons, if_neg hc]
      exact Or.inr ⟨c, tl, rfl, by simpa using hc⟩

/-- Soundness of the greedy run matcher: a successful `chompRun` splits the
input into a nonempty all-`p` run followed by the leftover, and the leftover
does not begin with a `p`-character. -/
theorem chompRun_sound {p : Char → Bool} {cs rest : List Char}
    (h : chompRun p cs = some rest) :
    ∃ run, run ≠ [] ∧ (∀ c ∈ run, p c = true) ∧ cs = run ++ rest ∧
      (rest = [] ∨ ∃ x t, rest = x :: t ∧ p x = false) := by
  cases cs with
  | nil => simp [chompRun] at h
  | cons c tl =>
    rw [chompRun] at h
    by_cases hc : p c = true
    · rw [if_pos hc] at h
      have hr := Option.some.inj h
      subst hr
      refine ⟨c :: tl.takeWhile p, by simp, ?_, ?_, dropWhile_shape p tl⟩
      · intro x hx
        rcases List.mem_cons.mp hx with rfl | hx
        · exact hc
        · exact List.mem_takeWhile_imp hx
      · rw [List.cons_append, List.takeWhile_append_dropWhile]
    · rw [if_neg hc] at h
      cases h

/-- Completeness of the greedy run matcher. -/
theorem chompRun_complete {p : Char → Bool} (run rest : List Char)
    (hne : run ≠ []) (hall : ∀ c ∈ run, p c = true)
    (hstop : rest = [] ∨ ∃ x t, rest = x :: t ∧ p x = false) :
    chompRun p (run ++ rest) = some rest := by
  cases run with
  | nil => exact absurd rfl hne
  | cons c tl =>
    rw [List.cons_append, chompRun, if_pos (hall c (by simp))]
    rw [dropWhile_append_all p tl rest (fun x hx => hall x (by simp [hx]))]
    rw [dropWhile_of_stop p rest hstop]

theorem chompDot_sound {cs rest : List Char} (h : chompDot cs = some rest) :
    cs = '.' :: rest := by
  cases cs with
  | nil => simp [chompDot] at h
  | cons c tl =>
    rw [chompDot] at h
    by_cases hc : c = '.'
    · rw [if_pos hc] at h
      rw [hc, Option.some.inj h]
    · rw [if_neg hc] at h
      cases h

theorem chompDot_cons (rest : List Char) : chompDot ('.' :: rest) = some rest := by
  rw [chompDot, if_pos rfl]

theorem labelEnd_iff (cs : List Char) :
    labelEnd cs = true ↔ cs = [] ∨ cs = ['\n'] := by
  simp [labelEnd]

/-- C5 (amended): `valid_label s` is true iff `s` is digits-dot-digits-dot-
lowercase-dot-lowercase (all four runs nonempty) — optionally followed by
one trailing newline, which Python's `$` anchor also accepts; the claim's
four concrete examples all evaluate as stated. -/
theorem valid_label_iff :
    (∀ s : String, valid_label s = true ↔
      ∃ a b c d : List Char,
        a ≠ [] ∧ (∀ ch ∈ a, ch.isDigit = true)
        ∧ b ≠ [] ∧ (∀ ch ∈ b, ch.isDigit = true)
        ∧ c ≠ [] ∧ (∀ ch ∈ c, ch.isLower = true)
        ∧ d ≠ [] ∧ (∀ ch ∈ d, ch.isLower = true)
        ∧ (s.data = a ++ '.' :: (b ++ '.' :: (c ++ '.' :: d))
           ∨ s.data = a ++ '.' :: (b ++ '.' :: (c ++ '.' :: (d ++ ['\n'])))))
    ∧ valid_label "1.12.a.a" = true
    ∧ valid_label "1.12.a" = false
    ∧ valid_label "abc" = false
    ∧ valid_label "1.12.A.a" = false := by
  refine ⟨?_, by decide, by decide, by decide, by decide⟩
  intro s
  constructor
  · intro h
    rw [valid_label] at h
    cases h1 : chompRun Char.isDigit s.data with
    | none => rw [h1] at h; simp at h
    | some r1 =>
    rw [h1, Option.some_bind] at h
    cases h2 : chompDot r1 with
    | none => rw [h2] at h; simp at h
    | some r2 =>
    rw [h2, Option.some_bind] at h
    cases h3 : chompRun Char.isDigit r2 with
    | none => rw [h3] at h; simp at h
    | some r3 =>
    rw [h3, Option.some_bind] at h
    cases h4 : chompDot r3 with
    | none => rw [h4] at h; simp at h
    | some r4 =>
    rw [h4, Option.some_bind] at h
    cases h5 : chompRun Char.isLower r4 with
    | none => rw [h5] at h; simp at h
    | some r5 =>
    rw [h5, Option.some_bind] at h
    cases h6 : chompDot r5 with
    | none => rw [h6] at h; simp at h
    | some r6 =>
    rw [h6, Option.some_bind] at h
    cases h7 : chompRun Char.isLower r6 with
    | none => rw [h7] at h; simp at h
    | some r7 =>
    rw [h7] at h
    obtain ⟨A, hAne, hAall, hsA, _⟩ := chompRun_sound h1
    have hr1 := chompDot_sound h2
    obtain ⟨B, hBne, hBall, hsB, _⟩ := chompRun_sound h3
    have hr3 := chompDot_sound h4
    obtain ⟨C, hCne, hCall, hsC, _⟩ := chompRun_sound h5
    have hr5 := chompDot_sound h6
    obtain ⟨D, hDne, hDall, hsD, _⟩ := chompRun_sound h7
    have hr7 := (labelEnd_iff r7).mp h
    refine ⟨A, B, C, D, hAne, hAall, hBne, hBall, hCne, hCall, hDne, hDall, ?_⟩
    rcases hr7 with rfl | rfl
    · left
      rw [hsA, hr1, hsB, hr3, hsC, hr5, hsD, List.append_nil]
    · right
      rw [hsA, hr1, hsB, hr3, hsC, hr5, hsD]
  · intro ⟨a, b, c, d, hane, haall, hbne, hball, hcne, hcall, hdne, hdall, heq⟩
    rw [valid_label]
    rcases heq with heq | heq <;> rw [heq]
    · rw [chompRun_complete a ('.' :: (b ++ '.' :: (c ++ '.' :: d))) hane haall
          (Or.inr ⟨'.', _, rfl, by decide⟩), Option.some_bind,
        chompDot_cons, Option.some_bind,
        chompRun_complete b ('.' :: (c ++ '.' :: d)) hbne hball
          (Or.inr ⟨'.', _, rfl, by decide⟩), Option.some_bind,
        chompDot_cons, Option.some_bind,
        chompRun_complete c ('.' :: d) hcne hcall
          (Or.inr ⟨'.', _, rfl, by decide⟩), Option.some_bind,
        chompDot_cons, Option.some_bind]
      rw [show d = d ++ [] from (List.append_nil d).symm,
        chompRun_complete d [] hdne hdall (Or.inl rfl)]
      rfl
    · rw [chompRun_complete a ('.' :: (b ++ '.' :: (c ++ '.' :: (d ++ ['\n']))))
          hane haall (Or.inr ⟨'.', _, rfl, by decide⟩), Option.some_bind,
        chompDot_cons, Option.some_bind,
        chompRun_complete b ('.' :: (c ++ '.' :: (d ++ ['\n']))) hbne hball
          (Or.inr ⟨'.', _, rfl, by decide⟩), Option.some_bind,
        chompDot_cons, Option.some_bind,
        chompRun_complete c ('.' :: (d ++ ['\n'])) hcne hcall
          (Or.inr ⟨'.', _, rfl, by decide⟩), Option.some_bind,
        chompDot_cons, Option.some_bind,
        chompRun_complete d ['\n'] hdne hdall
          (Or.inr ⟨'\n', [], rfl, by decide⟩)]
      rfl

/-- C5 counterexample: Python's `$` matches just before a trailing newline,
so `valid_label` accepts `"1.12.a.a\n"` although that string does not match
the claimed four-part pattern. -/
theorem valid_label_cex :
    valid_label "1.12.a.a\n" = true
    ∧ spec_label_pattern "1.12.a.a\n" = false
    ∧ valid_label "1.12.a.a\n" ≠ spec_label_pattern "1.12.a.a\n" := by
  refine ⟨by decide, by decide, by decide⟩
